/-
Verification of the NLMS adaptive FIR filter (johnybang/AdaptiveFilter-LMS).

We give a shallow embedding of the two implementations in the repository:

* the C implementation (`src/C/AdaptiveFilter.c`), whose sample history is a
  circular buffer `pBuffer` with a rotating cursor `BufferIdx`, and
* the Matlab implementation (`src/Matlab/AdaptiveFir.m`), whose history is a
  copy-and-shift column vector.

Machine `double` arithmetic is modelled by exact rational arithmetic (`ℚ`),
so all statements are about the algorithms in exact arithmetic.  All
definitions are computable, so concrete instances evaluate by `decide`.
-/
import Mathlib

set_option maxHeartbeats 1000000

namespace LMS

/-! ### The C data model (`AfData`, AdaptiveFilter.h lines 16-24)

`pBuffer` and `pWeights` are the arrays pointed to by the corresponding
fields; `Length` is kept as a separate field exactly as in the struct. -/

structure AfData where
  StepSize : ℚ
  Regularization : ℚ
  Length : ℕ
  pBuffer : List ℚ
  BufferIdx : ℕ
  pWeights : List ℚ
  Error : ℚ
  deriving DecidableEq

/-- The index-wrapping step `if (BufferIdx >= Length) BufferIdx = 0;`
(AdaptiveFilter.c lines 96-98, 125-127, 132-135). -/
def wrap (idx L : ℕ) : ℕ := if idx ≥ L then 0 else idx

/-- `SquaredNorm` (AdaptiveFilter.c lines 158-171): plain left-to-right
accumulation `output += pInput[i]*pInput[i]` for `i = 0 .. length-1`. -/
def SquaredNorm (pInput : List ℚ) (length : ℕ) : ℚ :=
  (List.range length).foldl (fun output i => output + pInput.getD i 0 * pInput.getD i 0) 0

/-- The loop of `Filter` (AdaptiveFilter.c lines 131-138): `n` iterations
remain, the current loop variable is `i = n - 1`, counting down; each
iteration wraps the cursor, accumulates `pWeights[i] * pBuffer[BufferIdx++]`. -/
def filterLoop (w buf : List ℚ) (L : ℕ) : ℕ → ℕ → ℚ → ℚ × ℕ
  | 0, idx, output => (output, idx)
  | n + 1, idx, output =>
    filterLoop w buf L n (wrap idx L + 1) (output + w.getD n 0 * buf.getD (wrap idx L) 0)

/-- The loop of `AdaptWeights` (AdaptiveFilter.c lines 94-101): `n` iterations
remain, current loop variable `i = n - 1`; each iteration wraps the cursor and
performs `pWeights[i] += normStepSize * Error * pBuffer[BufferIdx++]`. -/
def adaptLoop (normStepSize err : ℚ) (buf : List ℚ) (L : ℕ) : ℕ → ℕ → List ℚ → List ℚ × ℕ
  | 0, idx, w => (w, idx)
  | n + 1, idx, w =>
    adaptLoop normStepSize err buf L n (wrap idx L + 1)
      (w.set n (w.getD n 0 + normStepSize * err * buf.getD (wrap idx L) 0))

/-- `Filter` (AdaptiveFilter.c lines 120-141): wrap the cursor, overwrite the
oldest sample with `input`, advance the cursor, then accumulate the inner
product of the weights with the rotated buffer. -/
def Filter (input : ℚ) (d : AfData) : ℚ × AfData :=
  let e := wrap d.BufferIdx d.Length
  let buf := d.pBuffer.set e input
  let r := filterLoop d.pWeights buf d.Length d.Length (e + 1) 0
  (r.1, { d with pBuffer := buf, BufferIdx := r.2 })

/-- `AdaptWeights` (AdaptiveFilter.c lines 87-102). -/
def AdaptWeights (d : AfData) : AfData :=
  let sn := SquaredNorm d.pBuffer d.Length
  let normStepSize := d.StepSize / (d.Regularization + sn)
  let r := adaptLoop normStepSize d.Error d.pBuffer d.Length d.Length d.BufferIdx d.pWeights
  { d with pWeights := r.1, BufferIdx := r.2 }

/-- `AdaptiveFilterRun` (AdaptiveFilter.c lines 35-43): filter, set the error,
then adapt the weights. -/
def AdaptiveFilterRun (input desired : ℚ) (d : AfData) : ℚ × AfData :=
  let fr := Filter input d
  let d2 := { fr.2 with Error := desired - fr.1 }
  (fr.1, AdaptWeights d2)

/-- `AdaptiveFilterRunErrorIn` (AdaptiveFilter.c lines 61-69): set the error,
adapt the weights, then filter. -/
def AdaptiveFilterRunErrorIn (input error : ℚ) (d : AfData) : ℚ × AfData :=
  let d1 := AdaptWeights { d with Error := error }
  let fr := Filter input d1
  (fr.1, fr.2)

/-! ### Derived notions used to state the specification -/

/-- The insertion step at the head of `Filter` (AdaptiveFilter.c lines
124-129) in isolation: wrap the cursor, overwrite the oldest sample, advance
the cursor.  `Filter` itself performs this insertion and then advances the
cursor `Length` further times, which returns it to the same residue mod
`Length`. -/
def insertSample (input : ℚ) (d : AfData) : AfData :=
  let e := wrap d.BufferIdx d.Length
  { d with pBuffer := d.pBuffer.set e input, BufferIdx := e + 1 }

/-- The abstract history window: `window d i` is the sample that is `i` steps
old (index 0 = newest).  Between calls the newest sample sits at buffer
position `BufferIdx - 1` (mod `Length`). -/
def window (d : AfData) (i : ℕ) : ℚ :=
  d.pBuffer.getD ((d.BufferIdx + d.Length - 1 - i) % d.Length) 0

/-- Well-formedness of an engine state: positive length, buffer and weight
arrays of that length, cursor in range (it is `≤ Length`, the wrap check
being performed lazily before each access). -/
def StateInv (d : AfData) : Prop :=
  0 < d.Length ∧ d.pBuffer.length = d.Length ∧ d.pWeights.length = d.Length ∧
    d.BufferIdx ≤ d.Length

instance (d : AfData) : Decidable (StateInv d) := by
  unfold StateInv; infer_instance

/-- The initial engine state used by the C test harness
(AdaptiveFilterTest.c lines 48-59): zero buffer, zero weights, cursor 0,
error 0. -/
def initData (mu rho : ℚ) (L : ℕ) : AfData :=
  { StepSize := mu, Regularization := rho, Length := L,
    pBuffer := List.replicate L 0, BufferIdx := 0,
    pWeights := List.replicate L 0, Error := 0 }

/-! ### List and modular-arithmetic helpers -/

lemma getD_set_self (l : List ℚ) (i : ℕ) (a : ℚ) (h : i < l.length) :
    (l.set i a).getD i 0 = a := by
  rw [List.getD_eq_getElem?_getD, List.getElem?_set_self h]
  rfl

lemma getD_set_ne (l : List ℚ) {i j : ℕ} (a : ℚ) (h : i ≠ j) :
    (l.set i a).getD j 0 = l.getD j 0 := by
  rw [List.getD_eq_getElem?_getD, List.getElem?_set_ne h, ← List.getD_eq_getElem?_getD]

lemma list_ext_getD (l₁ l₂ : List ℚ) (hlen : l₁.length = l₂.length)
    (h : ∀ i, l₁.getD i 0 = l₂.getD i 0) : l₁ = l₂ := by
  apply List.ext_getElem hlen
  intro n h₁ h₂
  have hn := h n
  rwa [List.getD_eq_getElem?_getD, List.getD_eq_getElem?_getD,
    List.getElem?_eq_getElem h₁, List.getElem?_eq_getElem h₂, Option.getD_some,
    Option.getD_some] at hn

lemma getD_dropLast (l : List ℚ) (i : ℕ) (h : i + 1 < l.length) :
    l.dropLast.getD i 0 = l.getD i 0 := by
  have hi : i < l.dropLast.length := by
    rw [List.length_dropLast]; omega
  rw [List.getD_eq_getElem?_getD, List.getD_eq_getElem?_getD,
    List.getElem?_eq_getElem hi, List.getElem?_eq_getElem (show i < l.length by omega),
    Option.getD_some, Option.getD_some, List.getElem_dropLast]

lemma wrap_eq_mod {idx L : ℕ} (h : idx ≤ L) : wrap idx L = idx % L := by
  unfold wrap
  rcases Nat.lt_or_ge idx L with hlt | hge
  · rw [if_neg (by omega), Nat.mod_eq_of_lt hlt]
  · have hEq : idx = L := by omega
    rw [if_pos hge, hEq, Nat.mod_self]

lemma mod_shift_ne {L e t : ℕ} (he : e < L) (ht0 : 0 < t) (htL : t < L) :
    (e + t) % L ≠ e := by
  rcases Nat.lt_or_ge (e + t) L with hlt | hge
  · rw [Nat.mod_eq_of_lt hlt]; omega
  · have h2 : e + t - L < L := by omega
    rw [Nat.mod_eq_sub_mod hge, Nat.mod_eq_of_lt h2]
    omega

/-- Summing a function over one full cyclic period is invariant under a shift
of the starting phase by one. -/
lemma sum_range_shift_one (L : ℕ) (hL : 0 < L) (g : ℕ → ℚ) :
    ∑ k ∈ Finset.range L, g ((k + 1) % L) = ∑ k ∈ Finset.range L, g k := by
  obtain ⟨M, rfl⟩ : ∃ M, L = M + 1 := ⟨L - 1, by omega⟩
  rw [Finset.sum_range_succ (fun k => g ((k + 1) % (M + 1))), Finset.sum_range_succ' g,
    Nat.mod_self]
  have h2 : ∀ k ∈ Finset.range M, g ((k + 1) % (M + 1)) = g (k + 1) := by
    intro k hk
    rw [Nat.mod_eq_of_lt (by simp only [Finset.mem_range] at hk; omega)]
  rw [Finset.sum_congr rfl h2]

/-- Summing a function over one full cyclic period is invariant under any
rotation of the starting phase. -/
lemma sum_range_rot (c L : ℕ) (hL : 0 < L) (f : ℕ → ℚ) :
    ∑ k ∈ Finset.range L, f ((c + k) % L) = ∑ k ∈ Finset.range L, f k := by
  induction c with
  | zero =>
      apply Finset.sum_congr rfl
      intro k hk
      rw [Finset.mem_range] at hk
      rw [Nat.zero_add, Nat.mod_eq_of_lt hk]
  | succ n ih =>
      have step : ∀ k ∈ Finset.range L, f ((n + 1 + k) % L)
          = (fun j => f ((n + j) % L)) ((k + 1) % L) := by
        intro k _
        simp only
        have harg : n + 1 + k = n + (k + 1) := by omega
        rw [harg, ← Nat.add_mod_mod]
      rw [Finset.sum_congr rfl step, sum_range_shift_one L hL (fun j => f ((n + j) % L))]
      exact ih

lemma foldl_range_add (f : ℕ → ℚ) (n : ℕ) :
    ∀ a : ℚ, (List.range n).foldl (fun acc i => acc + f i) a
      = a + ∑ i ∈ Finset.range n, f i := by
  induction n with
  | zero => intro a; simp
  | succ m ih =>
      intro a
      rw [List.range_succ, List.foldl_append, ih, Finset.sum_range_succ]
      simp [add_assoc]

lemma SquaredNorm_eq_sum (x : List ℚ) (n : ℕ) :
    SquaredNorm x n = ∑ i ∈ Finset.range n, x.getD i 0 * x.getD i 0 := by
  unfold SquaredNorm
  rw [foldl_range_add (fun i => x.getD i 0 * x.getD i 0) n 0, zero_add]

lemma sum_zipWith_mul : ∀ a b : List ℚ, (List.zipWith (fun x y => x * y) a b).sum
    = ∑ i ∈ Finset.range (min a.length b.length), a.getD i 0 * b.getD i 0 := by
  intro a
  induction a with
  | nil => intro b; simp
  | cons x xs ih =>
      intro b
      cases b with
      | nil => simp
      | cons y ys =>
          rw [List.zipWith_cons_cons, List.sum_cons, ih ys]
          have hmin : min (x :: xs).length (y :: ys).length = min xs.length ys.length + 1 := by
            simp only [List.length_cons]
            omega
          rw [hmin, Finset.sum_range_succ' (fun i => (x :: xs).getD i 0 * (y :: ys).getD i 0)]
          simp only [List.getD_cons_succ, List.getD_cons_zero]
          ring

/-! ### Loop characterisations

`filterLoop`/`adaptLoop` starting with `n` remaining iterations at cursor
`idx ≤ L` pair loop variable `i = n - 1 - k` with buffer slot
`(idx + k) % L`, and finish with the cursor advanced by `n` (mod `L`),
still `≤ L`. -/

lemma filterLoop_spec (w buf : List ℚ) (L : ℕ) :
    ∀ (n idx : ℕ) (acc : ℚ), idx ≤ L → 0 < L →
      (filterLoop w buf L n idx acc).1
          = acc + ∑ k ∈ Finset.range n, w.getD (n - 1 - k) 0 * buf.getD ((idx + k) % L) 0
        ∧ (filterLoop w buf L n idx acc).2 ≤ L
        ∧ (filterLoop w buf L n idx acc).2 % L = (idx + n) % L := by
  intro n
  induction n with
  | zero =>
      intro idx acc hidx hL
      exact ⟨by simp [filterLoop], hidx, by simp [filterLoop]⟩
  | succ m ih =>
      intro idx acc hidx hL
      have he : wrap idx L = idx % L := wrap_eq_mod hidx
      have hlt : idx % L < L := Nat.mod_lt _ hL
      obtain ⟨h1, h2, h3⟩ := ih (idx % L + 1) (acc + w.getD m 0 * buf.getD (idx % L) 0) hlt hL
      have hunf : filterLoop w buf L (m + 1) idx acc
          = filterLoop w buf L m (idx % L + 1) (acc + w.getD m 0 * buf.getD (idx % L) 0) := by
        rw [filterLoop, he]
      refine ⟨?_, by rw [hunf]; exact h2, ?_⟩
      · rw [hunf, h1,
          Finset.sum_range_succ' (fun k => w.getD (m + 1 - 1 - k) 0 * buf.getD ((idx + k) % L) 0)]
        have hf0 : w.getD (m + 1 - 1 - 0) 0 * buf.getD ((idx + 0) % L) 0
            = w.getD m 0 * buf.getD (idx % L) 0 := by
          norm_num
        have hsum : ∑ k ∈ Finset.range m,
              w.getD (m - 1 - k) 0 * buf.getD ((idx % L + 1 + k) % L) 0
            = ∑ k ∈ Finset.range m,
              w.getD (m + 1 - 1 - (k + 1)) 0 * buf.getD ((idx + (k + 1)) % L) 0 := by
          apply Finset.sum_congr rfl
          intro k _
          have h4 : (idx % L + 1 + k) % L = (idx + (k + 1)) % L := by
            have h5 : idx % L + 1 + k = idx % L + (k + 1) := by omega
            rw [h5, Nat.mod_add_mod]
          have h6 : m - 1 - k = m + 1 - 1 - (k + 1) := by omega
          rw [h4, h6]
        rw [hsum, hf0]
        ring
      · rw [hunf, h3]
        have h7 : idx % L + 1 + m = idx % L + (m + 1) := by omega
        rw [h7, Nat.mod_add_mod]

lemma adaptLoop_spec (ns err : ℚ) (buf : List ℚ) (L : ℕ) :
    ∀ (n idx : ℕ) (w : List ℚ), idx ≤ L → 0 < L → n ≤ w.length →
      ((adaptLoop ns err buf L n idx w).1.length = w.length)
        ∧ (∀ i : ℕ, (adaptLoop ns err buf L n idx w).1.getD i 0
            = if i < n then w.getD i 0 + ns * err * buf.getD ((idx + (n - 1 - i)) % L) 0
              else w.getD i 0)
        ∧ (adaptLoop ns err buf L n idx w).2 ≤ L
        ∧ (adaptLoop ns err buf L n idx w).2 % L = (idx + n) % L := by
  intro n
  induction n with
  | zero =>
      intro idx w hidx hL hn
      exact ⟨rfl, fun i => by simp [adaptLoop], hidx, by simp [adaptLoop]⟩
  | succ m ih =>
      intro idx w hidx hL hn
      have he : wrap idx L = idx % L := wrap_eq_mod hidx
      have hlt : idx % L < L := Nat.mod_lt _ hL
      have hmw : m < w.length := by omega
      obtain ⟨l1, l2, l3, l4⟩ := ih (idx % L + 1)
        (w.set m (w.getD m 0 + ns * err * buf.getD (idx % L) 0)) hlt hL
        (by rw [List.length_set]; omega)
      have hunf : adaptLoop ns err buf L (m + 1) idx w
          = adaptLoop ns err buf L m (idx % L + 1)
              (w.set m (w.getD m 0 + ns * err * buf.getD (idx % L) 0)) := by
        rw [adaptLoop, he]
      refine ⟨by rw [hunf, l1, List.length_set], ?_, by rw [hunf]; exact l3, ?_⟩
      · intro i
        rw [hunf, l2 i]
        by_cases hi : i < m
        · rw [if_pos hi, if_pos (by omega),
            getD_set_ne _ _ (show m ≠ i by omega)]
          have h4 : (idx % L + 1 + (m - 1 - i)) % L = (idx + (m + 1 - 1 - i)) % L := by
            have h5 : idx % L + 1 + (m - 1 - i) = idx % L + (m + 1 - 1 - i) := by omega
            rw [h5, Nat.mod_add_mod]
          rw [h4]
        · by_cases him : i = m
          · subst him
            rw [if_neg (by omega), if_pos (by omega),
              getD_set_self _ _ _ hmw]
            have h7 : idx + (i + 1 - 1 - i) = idx := by omega
            rw [h7]
          · rw [if_neg (by omega), if_neg (by omega),
              getD_set_ne _ _ (show m ≠ i by omega)]
      · rw [hunf, l4]
        have h7 : idx % L + 1 + m = idx % L + (m + 1) := by omega
        rw [h7, Nat.mod_add_mod]

lemma sum_map_sq (b : List ℚ) :
    (b.map (fun v => v * v)).sum = ∑ i ∈ Finset.range b.length, b.getD i 0 * b.getD i 0 := by
  induction b with
  | nil => simp
  | cons x xs ih =>
      rw [List.map_cons, List.sum_cons, ih, List.length_cons,
        Finset.sum_range_succ' (fun i => (x :: xs).getD i 0 * (x :: xs).getD i 0)]
      simp only [List.getD_cons_succ, List.getD_cons_zero]
      ring

/-! ### Closed forms of the C routines -/

lemma Filter_eq (input : ℚ) (d : AfData) :
    Filter input d
      = ((filterLoop d.pWeights (d.pBuffer.set (wrap d.BufferIdx d.Length) input)
            d.Length d.Length (wrap d.BufferIdx d.Length + 1) 0).1,
         { d with
            pBuffer := d.pBuffer.set (wrap d.BufferIdx d.Length) input,
            BufferIdx := (filterLoop d.pWeights
              (d.pBuffer.set (wrap d.BufferIdx d.Length) input)
              d.Length d.Length (wrap d.BufferIdx d.Length + 1) 0).2 }) := rfl

lemma AdaptWeights_eq (d : AfData) :
    AdaptWeights d
      = { d with
          pWeights := (adaptLoop (d.StepSize / (d.Regularization + SquaredNorm d.pBuffer d.Length))
            d.Error d.pBuffer d.Length d.Length d.BufferIdx d.pWeights).1,
          BufferIdx := (adaptLoop (d.StepSize / (d.Regularization + SquaredNorm d.pBuffer d.Length))
            d.Error d.pBuffer d.Length d.Length d.BufferIdx d.pWeights).2 } := rfl

/-! ### Window lemmas -/

/-- `window` only depends on the cursor through its residue mod `Length`. -/
lemma window_eq_mod (d : AfData) (i : ℕ) (hi : i < d.Length) :
    window d i
      = d.pBuffer.getD ((d.BufferIdx % d.Length + (d.Length - 1 - i)) % d.Length) 0 := by
  unfold window
  have h1 : d.BufferIdx + d.Length - 1 - i = d.BufferIdx + (d.Length - 1 - i) := by omega
  rw [h1, ← Nat.mod_add_mod]

lemma window_congr (d₁ d₂ : AfData) (hbuf : d₁.pBuffer = d₂.pBuffer)
    (hlen : d₁.Length = d₂.Length)
    (hidx : d₁.BufferIdx % d₁.Length = d₂.BufferIdx % d₂.Length)
    (i : ℕ) (hi : i < d₁.Length) :
    window d₁ i = window d₂ i := by
  rw [window_eq_mod d₁ i hi, window_eq_mod d₂ i (hlen ▸ hi), hbuf, hidx, hlen]

/-- Closed form of the post-insertion window in terms of the updated buffer. -/
lemma window_insert (input : ℚ) (d : AfData) (h : StateInv d) (i : ℕ) (hi : i < d.Length) :
    window (insertSample input d) i
      = (d.pBuffer.set (d.BufferIdx % d.Length) input).getD
          ((d.BufferIdx % d.Length + 1 + (d.Length - 1 - i)) % d.Length) 0 := by
  obtain ⟨hL, hbuf, hw, hidx⟩ := id h
  unfold window insertSample
  simp only
  rw [wrap_eq_mod hidx]
  have h1 : d.BufferIdx % d.Length + 1 + d.Length - 1 - i
      = d.BufferIdx % d.Length + 1 + (d.Length - 1 - i) := by omega
  rw [h1]

/-- Inserting `input` makes it the newest sample of the window. -/
lemma window_insert_zero (input : ℚ) (d : AfData) (h : StateInv d) :
    window (insertSample input d) 0 = input := by
  obtain ⟨hL, hbuf, hw, hidx⟩ := id h
  rw [window_insert input d h 0 hL]
  have h1 : (d.BufferIdx % d.Length + 1 + (d.Length - 1 - 0)) % d.Length
      = d.BufferIdx % d.Length := by
    have h2 : d.BufferIdx % d.Length + 1 + (d.Length - 1 - 0)
        = d.BufferIdx % d.Length + d.Length := by omega
    rw [h2, Nat.add_mod_right]
    exact Nat.mod_mod_of_dvd _ dvd_rfl
  rw [h1]
  exact getD_set_self _ _ _ (by rw [hbuf]; exact Nat.mod_lt _ hL)

/-- Inserting `input` shifts every older sample one step further into the past. -/
lemma window_insert_succ (input : ℚ) (d : AfData) (h : StateInv d)
    (i : ℕ) (hi : i + 1 < d.Length) :
    window (insertSample input d) (i + 1) = window d i := by
  obtain ⟨hL, hbuf, hw, hidx⟩ := id h
  rw [window_insert input d h (i + 1) hi, window_eq_mod d i (by omega)]
  have h1 : d.BufferIdx % d.Length + 1 + (d.Length - 1 - (i + 1))
      = d.BufferIdx % d.Length + (d.Length - 1 - i) := by omega
  rw [h1]
  apply getD_set_ne
  intro hc
  exact mod_shift_ne (Nat.mod_lt _ hL) (show 0 < d.Length - 1 - i by omega)
    (show d.Length - 1 - i < d.Length by omega) hc.symm

/-- The slot overwritten by an insertion is the one holding the oldest sample
of the pre-insertion window. -/
lemma oldest_slot (d : AfData) (h : StateInv d) :
    d.pBuffer.getD (d.BufferIdx % d.Length) 0 = window d (d.Length - 1) := by
  obtain ⟨hL, hbuf, hw, hidx⟩ := id h
  rw [window_eq_mod d (d.Length - 1) (by omega)]
  have h1 : d.Length - 1 - (d.Length - 1) = 0 := by omega
  rw [h1, Nat.add_zero, Nat.mod_mod_of_dvd _ dvd_rfl]

/-! ### Specifications of the two internal routines -/

/-- Full characterisation of `AdaptWeights`: every weight `i < Length` gets
the NLMS increment paired with the sample `i` steps old; the buffer is not
written; the cursor advances by `Length` (a whole revolution). -/
lemma AdaptWeights_spec (d : AfData) (h : StateInv d) :
    (AdaptWeights d).pWeights.length = d.Length
    ∧ (∀ i, i < d.Length → (AdaptWeights d).pWeights.getD i 0
        = d.pWeights.getD i 0
          + d.StepSize / (d.Regularization + SquaredNorm d.pBuffer d.Length)
              * d.Error * window d i)
    ∧ (AdaptWeights d).pBuffer = d.pBuffer
    ∧ (AdaptWeights d).BufferIdx ≤ d.Length
    ∧ (AdaptWeights d).BufferIdx % d.Length = d.BufferIdx % d.Length := by
  obtain ⟨hL, hbuf, hw, hidx⟩ := h
  obtain ⟨l1, l2, l3, l4⟩ := adaptLoop_spec
    (d.StepSize / (d.Regularization + SquaredNorm d.pBuffer d.Length))
    d.Error d.pBuffer d.Length d.Length d.BufferIdx d.pWeights hidx hL (by omega)
  rw [AdaptWeights_eq]
  refine ⟨by simp only; rw [l1, hw], ?_, rfl, l3, ?_⟩
  · intro i hi
    simp only
    rw [l2 i, if_pos hi, window_eq_mod d i hi]
    have h1 : (d.BufferIdx + (d.Length - 1 - i)) % d.Length
        = (d.BufferIdx % d.Length + (d.Length - 1 - i)) % d.Length := by
      rw [Nat.mod_add_mod]
    rw [h1]
  · simp only
    rw [l4, Nat.add_mod_right]

/-- Full characterisation of `Filter`: the new input replaces the oldest
sample, the output is the inner product of the (untouched) weights with the
post-insertion window, and the cursor ends one past the insertion slot
(mod `Length`). -/
lemma Filter_spec (input : ℚ) (d : AfData) (h : StateInv d) :
    (Filter input d).1 = ∑ i ∈ Finset.range d.Length,
        d.pWeights.getD i 0 * window (insertSample input d) i
    ∧ (Filter input d).2.pBuffer = d.pBuffer.set (d.BufferIdx % d.Length) input
    ∧ (Filter input d).2.BufferIdx ≤ d.Length
    ∧ (Filter input d).2.BufferIdx % d.Length
        = (d.BufferIdx % d.Length + 1) % d.Length := by
  obtain ⟨hL, hbuf, hw, hidx⟩ := h
  have he : wrap d.BufferIdx d.Length = d.BufferIdx % d.Length := wrap_eq_mod hidx
  have helt : d.BufferIdx % d.Length < d.Length := Nat.mod_lt _ hL
  obtain ⟨f1, f2, f3⟩ := filterLoop_spec d.pWeights
    (d.pBuffer.set (d.BufferIdx % d.Length) input) d.Length d.Length
    (d.BufferIdx % d.Length + 1) 0 helt hL
  rw [Filter_eq]
  simp only [he]
  refine ⟨?_, by trivial, f2, ?_⟩
  · rw [f1, zero_add,
      ← Finset.sum_range_reflect
        (fun i => d.pWeights.getD i 0 * window (insertSample input d) i) d.Length]
    apply Finset.sum_congr rfl
    intro k hk
    rw [Finset.mem_range] at hk
    rw [window_insert input d ⟨hL, hbuf, hw, hidx⟩ (d.Length - 1 - k) (by omega)]
    have h1 : d.Length - 1 - (d.Length - 1 - k) = k := by omega
    rw [h1]
  · rw [f3]
    have h2 : d.BufferIdx % d.Length + 1 + d.Length
        = d.BufferIdx % d.Length + 1 + d.Length * 1 := by omega
    rw [h2, Nat.add_mul_mod_self_left]

/-- The raw left-to-right sum of squares over the circular buffer equals the
squared L2 norm of the chronological window (exact arithmetic: the two sums
range over the same multiset of slots). -/
lemma SquaredNorm_eq_window_sum (s : AfData) (h : StateInv s) :
    SquaredNorm s.pBuffer s.Length
      = ∑ j ∈ Finset.range s.Length, window s j * window s j := by
  obtain ⟨hL, hbuf, hw, hidx⟩ := id h
  rw [SquaredNorm_eq_sum,
    ← sum_range_rot (s.BufferIdx % s.Length) s.Length hL
      (fun t => s.pBuffer.getD t 0 * s.pBuffer.getD t 0),
    ← Finset.sum_range_reflect (fun j => window s j * window s j) s.Length]
  apply Finset.sum_congr rfl
  intro k hk
  rw [Finset.mem_range] at hk
  rw [window_eq_mod s (s.Length - 1 - k) (by omega)]
  have h1 : s.Length - 1 - (s.Length - 1 - k) = k := by omega
  rw [h1]

lemma insertSample_pBuffer (input : ℚ) (d : AfData) (hidx : d.BufferIdx ≤ d.Length) :
    (insertSample input d).pBuffer = d.pBuffer.set (d.BufferIdx % d.Length) input := by
  unfold insertSample
  simp only
  rw [wrap_eq_mod hidx]

lemma insertSample_BufferIdx (input : ℚ) (d : AfData) (hidx : d.BufferIdx ≤ d.Length) :
    (insertSample input d).BufferIdx = d.BufferIdx % d.Length + 1 := by
  unfold insertSample
  simp only
  rw [wrap_eq_mod hidx]

/-- `pData->Error = e;` as a state transformer. -/
def setError (d : AfData) (e : ℚ) : AfData :=
  { d with Error := e }

@[simp] lemma setError_StepSize (d : AfData) (e : ℚ) : (setError d e).StepSize = d.StepSize := rfl

@[simp] lemma setError_Regularization (d : AfData) (e : ℚ) :
    (setError d e).Regularization = d.Regularization := rfl

@[simp] lemma setError_Length (d : AfData) (e : ℚ) : (setError d e).Length = d.Length := rfl

@[simp] lemma setError_pBuffer (d : AfData) (e : ℚ) : (setError d e).pBuffer = d.pBuffer := rfl

@[simp] lemma setError_BufferIdx (d : AfData) (e : ℚ) :
    (setError d e).BufferIdx = d.BufferIdx := rfl

@[simp] lemma setError_pWeights (d : AfData) (e : ℚ) :
    (setError d e).pWeights = d.pWeights := rfl

@[simp] lemma setError_Error (d : AfData) (e : ℚ) : (setError d e).Error = e := rfl

lemma setError_StateInv (d : AfData) (e : ℚ) (h : StateInv d) : StateInv (setError d e) := h

lemma setError_window (d : AfData) (e : ℚ) (i : ℕ) : window (setError d e) i = window d i := rfl

lemma Run_eq (input desired : ℚ) (d : AfData) :
    AdaptiveFilterRun input desired d
      = ((Filter input d).1,
         AdaptWeights (setError (Filter input d).2 (desired - (Filter input d).1))) := rfl

lemma RunErrorIn_eq (input error : ℚ) (d : AfData) :
    AdaptiveFilterRunErrorIn input error d
      = ((Filter input (AdaptWeights (setError d error))).1,
         (Filter input (AdaptWeights (setError d error))).2) := rfl

/-- Full characterisation of `AdaptiveFilterRun`: (1) the output is the dot
product of the pre-update weights with the post-insertion window; (2) the
stored error is `desired - output`; (3) each weight receives the NLMS
increment computed from that error and the post-insertion window (whose
energy normalises the step); (4) the state's window afterwards is exactly the
post-insertion window; (5) exactly the slot holding the evicted oldest sample
is overwritten; and the state invariant is preserved. -/
lemma Run_spec (d : AfData) (input desired : ℚ) (h : StateInv d) :
    (AdaptiveFilterRun input desired d).1
        = ∑ i ∈ Finset.range d.Length,
            d.pWeights.getD i 0 * window (insertSample input d) i
      ∧ (AdaptiveFilterRun input desired d).2.Error
          = desired - (AdaptiveFilterRun input desired d).1
      ∧ (∀ i, i < d.Length → (AdaptiveFilterRun input desired d).2.pWeights.getD i 0
          = d.pWeights.getD i 0
            + d.StepSize
                / (d.Regularization
                    + ∑ j ∈ Finset.range d.Length,
                        window (insertSample input d) j * window (insertSample input d) j)
              * (AdaptiveFilterRun input desired d).2.Error
              * window (insertSample input d) i)
      ∧ (∀ i, i < d.Length → window (AdaptiveFilterRun input desired d).2 i
          = window (insertSample input d) i)
      ∧ (AdaptiveFilterRun input desired d).2.pBuffer
          = d.pBuffer.set (d.BufferIdx % d.Length) input
      ∧ StateInv (AdaptiveFilterRun input desired d).2 := by
  obtain ⟨hL, hbuf, hw, hidx⟩ := id h
  obtain ⟨o1, o2, o3, o4⟩ := Filter_spec input d h
  have hflen : (Filter input d).2.Length = d.Length := rfl
  have hfw : (Filter input d).2.pWeights = d.pWeights := rfl
  have hinv2 : StateInv (setError (Filter input d).2 (desired - (Filter input d).1)) := by
    refine setError_StateInv _ _ ⟨?_, ?_, ?_, ?_⟩
    · rw [hflen]; exact hL
    · rw [hflen, o2, List.length_set, hbuf]
    · rw [hflen, hfw, hw]
    · rw [hflen]; exact o3
  have hwin2 : ∀ i, i < d.Length →
      window (setError (Filter input d).2 (desired - (Filter input d).1)) i
        = window (insertSample input d) i := by
    intro i hi
    rw [setError_window]
    apply window_congr
    · rw [o2, insertSample_pBuffer input d hidx]
    · rfl
    · rw [hflen, o4, insertSample_BufferIdx input d hidx]
      rfl
    · rw [hflen]; exact hi
  obtain ⟨a1, a2, a3, a4, a5⟩ := AdaptWeights_spec
    (setError (Filter input d).2 (desired - (Filter input d).1)) hinv2
  simp only [setError_Length, setError_pBuffer, setError_pWeights, setError_StepSize,
    setError_Regularization, setError_Error, setError_BufferIdx, hflen, hfw] at a1 a2 a3 a4 a5
  have hsn : SquaredNorm (Filter input d).2.pBuffer d.Length
      = ∑ j ∈ Finset.range d.Length,
          window (insertSample input d) j * window (insertSample input d) j := by
    have h0 := SquaredNorm_eq_window_sum
      (setError (Filter input d).2 (desired - (Filter input d).1)) hinv2
    simp only [setError_Length, setError_pBuffer, hflen] at h0
    rw [h0]
    refine Finset.sum_congr rfl fun j hj => ?_
    rw [hwin2 j (Finset.mem_range.mp hj)]
  rw [Run_eq]
  refine ⟨o1, rfl, ?_, ?_, ?_, ?_⟩
  · intro i hi
    rw [show (((Filter input d).1,
          AdaptWeights (setError (Filter input d).2
            (desired - (Filter input d).1))).2 : AfData)
        = AdaptWeights (setError (Filter input d).2 (desired - (Filter input d).1)) from rfl,
      a2 i hi, hwin2 i hi, hsn]
    rfl
  · intro i hi
    rw [show (((Filter input d).1,
          AdaptWeights (setError (Filter input d).2
            (desired - (Filter input d).1))).2 : AfData)
        = AdaptWeights (setError (Filter input d).2 (desired - (Filter input d).1)) from rfl]
    rw [window_congr
        (AdaptWeights (setError (Filter input d).2 (desired - (Filter input d).1)))
        (setError (Filter input d).2 (desired - (Filter input d).1))
        a3 rfl (by rw [setError_Length, hflen]; exact a5) i ?hi2]
    · exact hwin2 i hi
    case hi2 =>
      have hA : (AdaptWeights (setError (Filter input d).2
          (desired - (Filter input d).1))).Length = d.Length := rfl
      rw [hA]; exact hi
  · show (AdaptWeights (setError (Filter input d).2 (desired - (Filter input d).1))).pBuffer = _
    have hB : (AdaptWeights (setError (Filter input d).2
        (desired - (Filter input d).1))).pBuffer
        = (Filter input d).2.pBuffer := a3
    rw [hB, o2]
  · refine ⟨?_, ?_, ?_, ?_⟩
    · show 0 < (AdaptWeights _).Length
      show 0 < d.Length
      exact hL
    · show (AdaptWeights (setError (Filter input d).2
          (desired - (Filter input d).1))).pBuffer.length = _
      rw [a3]
      show (Filter input d).2.pBuffer.length = d.Length
      rw [o2, List.length_set, hbuf]
    · exact a1
    · exact a4

/-- Full characterisation of `AdaptiveFilterRunErrorIn`: (1) the stored error
is the caller's `error`; (2) each weight receives the NLMS increment computed
from `error` and the PRE-insertion window; (3) only afterwards is `input`
inserted, and the returned output is the dot product of the UPDATED weights
with the post-insertion window; (4) the state's window afterwards is the
post-insertion window; (5) exactly the slot holding the evicted oldest sample
is overwritten; the invariant is preserved. -/
lemma RunErrorIn_spec (d : AfData) (input error : ℚ) (h : StateInv d) :
    (AdaptiveFilterRunErrorIn input error d).2.Error = error
      ∧ (∀ i, i < d.Length → (AdaptiveFilterRunErrorIn input error d).2.pWeights.getD i 0
          = d.pWeights.getD i 0
            + d.StepSize
                / (d.Regularization + ∑ j ∈ Finset.range d.Length, window d j * window d j)
              * error * window d i)
      ∧ (AdaptiveFilterRunErrorIn input error d).1
          = ∑ i ∈ Finset.range d.Length,
              (AdaptiveFilterRunErrorIn input error d).2.pWeights.getD i 0
                * window (insertSample input d) i
      ∧ (∀ i, i < d.Length → window (AdaptiveFilterRunErrorIn input error d).2 i
          = window (insertSample input d) i)
      ∧ (AdaptiveFilterRunErrorIn input error d).2.pBuffer
          = d.pBuffer.set (d.BufferIdx % d.Length) input
      ∧ StateInv (AdaptiveFilterRunErrorIn input error d).2 := by
  obtain ⟨hL, hbuf, hw, hidx⟩ := id h
  obtain ⟨a1, a2, a3, a4, a5⟩ := AdaptWeights_spec (setError d error) (setError_StateInv d error h)
  simp only [setError_Length, setError_pBuffer, setError_pWeights, setError_StepSize,
    setError_Regularization, setError_Error, setError_BufferIdx] at a1 a2 a3 a4 a5
  have hinv1 : StateInv (AdaptWeights (setError d error)) := by
    refine ⟨hL, ?_, a1, a4⟩
    show (AdaptWeights (setError d error)).pBuffer.length = d.Length
    rw [a3, hbuf]
  obtain ⟨o1, o2, o3, o4⟩ := Filter_spec input (AdaptWeights (setError d error)) hinv1
  have hAlen : (AdaptWeights (setError d error)).Length = d.Length := rfl
  have hAidxle : (AdaptWeights (setError d error)).BufferIdx ≤ d.Length := a4
  have hbufins : (insertSample input (AdaptWeights (setError d error))).pBuffer
      = (insertSample input d).pBuffer := by
    rw [insertSample_pBuffer input _ hAidxle, insertSample_pBuffer input d hidx,
      hAlen, a3, a5]
  have hwinsins : ∀ i, i < d.Length →
      window (insertSample input (AdaptWeights (setError d error))) i
        = window (insertSample input d) i := by
    intro i hi
    apply window_congr
    · exact hbufins
    · rfl
    · rw [insertSample_BufferIdx input _ hAidxle, insertSample_BufferIdx input d hidx]
      show ((AdaptWeights (setError d error)).BufferIdx % d.Length + 1) % d.Length = _
      rw [a5]
      rfl
    · exact hi
  have hwinpost : ∀ i, i < d.Length →
      window (Filter input (AdaptWeights (setError d error))).2 i
        = window (insertSample input (AdaptWeights (setError d error))) i := by
    intro i hi
    apply window_congr
    · rw [o2, insertSample_pBuffer input _ hAidxle]
    · rfl
    · show (Filter input (AdaptWeights (setError d error))).2.BufferIdx
            % (AdaptWeights (setError d error)).Length
          = (insertSample input (AdaptWeights (setError d error))).BufferIdx
            % (AdaptWeights (setError d error)).Length
      rw [o4, insertSample_BufferIdx input _ hAidxle]
    · exact hi
  rw [RunErrorIn_eq]
  refine ⟨rfl, ?_, ?_, ?_, ?_, ?_⟩
  · intro i hi
    show (Filter input (AdaptWeights (setError d error))).2.pWeights.getD i 0 = _
    have hfw : (Filter input (AdaptWeights (setError d error))).2.pWeights
        = (AdaptWeights (setError d error)).pWeights := rfl
    rw [hfw, a2 i hi, setError_window, SquaredNorm_eq_window_sum d h]
  · show (Filter input (AdaptWeights (setError d error))).1 = _
    rw [o1]
    refine Finset.sum_congr (by rw [hAlen]) fun i hi => ?_
    rw [Finset.mem_range] at hi
    rw [hwinsins i (by rw [← hAlen]; exact hi)]
    rfl
  · intro i hi
    show window (Filter input (AdaptWeights (setError d error))).2 i = _
    rw [hwinpost i hi, hwinsins i hi]
  · show (Filter input (AdaptWeights (setError d error))).2.pBuffer = _
    rw [o2]
    show (AdaptWeights (setError d error)).pBuffer.set
        ((AdaptWeights (setError d error)).BufferIdx % d.Length) input = _
    rw [a3, a5]
  · refine ⟨hL, ?_, ?_, ?_⟩
    · show (Filter input (AdaptWeights (setError d error))).2.pBuffer.length = d.Length
      rw [o2, List.length_set, a3, hbuf]
    · show (Filter input (AdaptWeights (setError d error))).2.pWeights.length = d.Length
      have hfw : (Filter input (AdaptWeights (setError d error))).2.pWeights
          = (AdaptWeights (setError d error)).pWeights := rfl
      rw [hfw, a1]
    · exact o3

/-! ### Claim statements -/

/-- The behaviour claimed for `AdaptiveFilterRun`: insert first, filter with
the pre-update weights against the post-insertion window, store
`desired - output`, and only then apply the NLMS update with that error and
that same post-insertion window. -/
def RunOrderSpec (d : AfData) (input desired : ℚ) : Prop :=
  (AdaptiveFilterRun input desired d).1
      = ∑ i ∈ Finset.range d.Length,
          d.pWeights.getD i 0 * window (insertSample input d) i
    ∧ (AdaptiveFilterRun input desired d).2.Error
        = desired - (AdaptiveFilterRun input desired d).1
    ∧ (AdaptiveFilterRun input desired d).2.Error
        = desired - ∑ i ∈ Finset.range d.Length,
            d.pWeights.getD i 0 * window (insertSample input d) i
    ∧ (∀ i, i < d.Length → (AdaptiveFilterRun input desired d).2.pWeights.getD i 0
        = d.pWeights.getD i 0
          + d.StepSize
              / (d.Regularization
                  + ∑ j ∈ Finset.range d.Length,
                      window (insertSample input d) j * window (insertSample input d) j)
            * (AdaptiveFilterRun input desired d).2.Error
            * window (insertSample input d) i)
    ∧ (∀ i, i < d.Length → window (AdaptiveFilterRun input desired d).2 i
        = window (insertSample input d) i)

/-- The behaviour claimed for `AdaptiveFilterRunErrorIn`: store the supplied
error and apply the NLMS update against the PRE-insertion window, then insert
`input` and return the dot product of the updated weights with the new
window — the exact inverse ordering of `Run`. -/
def RunErrorInOrderSpec (d : AfData) (input error : ℚ) : Prop :=
  (AdaptiveFilterRunErrorIn input error d).2.Error = error
    ∧ (∀ i, i < d.Length → (AdaptiveFilterRunErrorIn input error d).2.pWeights.getD i 0
        = d.pWeights.getD i 0
          + d.StepSize
              / (d.Regularization
                  + ∑ j ∈ Finset.range d.Length, window d j * window d j)
            * error * window d i)
    ∧ (AdaptiveFilterRunErrorIn input error d).1
        = ∑ i ∈ Finset.range d.Length,
            (AdaptiveFilterRunErrorIn input error d).2.pWeights.getD i 0
              * window (insertSample input d) i
    ∧ (∀ i, i < d.Length → window (AdaptiveFilterRunErrorIn input error d).2 i
        = window (insertSample input d) i)

/-- The behaviour claimed for the shared NLMS update `AdaptWeights`: each
weight `i` gains `stepSize / (regularization + energy) * lastError *
window[i]`, where the energy is the left-to-right sum of squares of the `L`
buffered samples, equal in exact arithmetic to the squared L2 norm of the
window; the weight vector keeps its length. -/
def AdaptWeightsSpec (d : AfData) : Prop :=
  (∀ i, i < d.Length → (AdaptWeights d).pWeights.getD i 0
      = d.pWeights.getD i 0
        + d.StepSize / (d.Regularization + SquaredNorm d.pBuffer d.Length)
          * d.Error * window d i)
    ∧ SquaredNorm d.pBuffer d.Length
        = ∑ j ∈ Finset.range d.Length, window d j * window d j
    ∧ (AdaptWeights d).pWeights.length = d.pWeights.length

/-- The frame conditions claimed for the weight update and the per-call
buffer effect: `AdaptWeights` never writes the buffer and returns the cursor
to the same residue mod `Length`, so the window is untouched; each full call
overwrites exactly the slot holding the evicted oldest sample. -/
def FrameSpec (d : AfData) (input desired err : ℚ) : Prop :=
  (AdaptWeights d).pBuffer = d.pBuffer
    ∧ (AdaptWeights d).BufferIdx % d.Length = d.BufferIdx % d.Length
    ∧ (AdaptWeights d).BufferIdx ≤ d.Length
    ∧ (∀ i, i < d.Length → window (AdaptWeights d) i = window d i)
    ∧ (AdaptiveFilterRun input desired d).2.pBuffer
        = d.pBuffer.set (d.BufferIdx % d.Length) input
    ∧ (AdaptiveFilterRunErrorIn input err d).2.pBuffer
        = d.pBuffer.set (d.BufferIdx % d.Length) input
    ∧ d.pBuffer.getD (d.BufferIdx % d.Length) 0 = window d (d.Length - 1)
    ∧ (∀ k, k ≠ d.BufferIdx % d.Length →
        (AdaptiveFilterRun input desired d).2.pBuffer.getD k 0 = d.pBuffer.getD k 0)

instance (d : AfData) (input desired : ℚ) : Decidable (RunOrderSpec d input desired) := by
  unfold RunOrderSpec; infer_instance

instance (d : AfData) (input error : ℚ) : Decidable (RunErrorInOrderSpec d input error) := by
  unfold RunErrorInOrderSpec; infer_instance

instance (d : AfData) : Decidable (AdaptWeightsSpec d) := by
  unfold AdaptWeightsSpec; infer_instance

/-- A small concrete well-formed engine state used by witnesses. -/
def dEx : AfData :=
  { StepSize := 3 / 10, Regularization := 1 / 10 ^ 10, Length := 2,
    pBuffer := [5, 7], BufferIdx := 1, pWeights := [1, 2], Error := 4 }

/-- C1: on a validly constructed engine, `Run(input, desired)` inserts
`input` (evicting the oldest sample), returns the inner product of the
pre-update weights with the post-insertion window (weight 0 paired with the
newest sample), stores `lastError = desired - output`, and only then applies
the NLMS update using that error and that same post-insertion window. -/
theorem C1_run_is_filter_then_adapt (d : AfData) (input desired : ℚ) (h : StateInv d) :
    RunOrderSpec d input desired := by
  obtain ⟨r1, r2, r3, r4, _, _⟩ := Run_spec d input desired h
  exact ⟨r1, r2, by rw [r2, r1], r3, r4⟩

theorem C1_witness : StateInv dEx ∧ RunOrderSpec dEx 1 2 :=
  ⟨by decide, C1_run_is_filter_then_adapt dEx 1 2 (by decide)⟩

/-- C2: on a validly constructed engine, `RunErrorIn(input, error)` first
stores `lastError = error` and applies the NLMS update against the history
window BEFORE `input` is inserted; only afterwards does it insert `input`
and return the inner product of the already-updated weights with the new
window — the adapt-then-filter order, inverse of `Run`. -/
theorem C2_runErrorIn_is_adapt_then_filter (d : AfData) (input error : ℚ)
    (h : StateInv d) : RunErrorInOrderSpec d input error := by
  obtain ⟨r1, r2, r3, r4, _, _⟩ := RunErrorIn_spec d input error h
  exact ⟨r1, r2, r3, r4⟩

theorem C2_witness : StateInv dEx ∧ RunErrorInOrderSpec dEx 1 2 :=
  ⟨by decide, C2_runErrorIn_is_adapt_then_filter dEx 1 2 (by decide)⟩

/-- C3: the shared NLMS update changes weight `i` by exactly
`stepSize / (regularization + energy) * lastError * window[i]` for every
`i < L`, where the energy is the plain left-to-right sum of squares of the
`L` buffered samples, equal in exact arithmetic to the squared L2 norm of
the current window; regularization enters only as an addend in the
denominator. -/
theorem C3_nlms_update_formula (d : AfData) (h : StateInv d) : AdaptWeightsSpec d := by
  obtain ⟨a1, a2, _, _, _⟩ := AdaptWeights_spec d h
  obtain ⟨hL, hbuf, hw, hidx⟩ := id h
  exact ⟨a2, SquaredNorm_eq_window_sum d h, by rw [a1, hw]⟩

theorem C3_witness : StateInv dEx ∧ AdaptWeightsSpec dEx :=
  ⟨by decide, C3_nlms_update_formula dEx (by decide)⟩

/-- C10: the weight update reads but never writes the sample buffer, its
`Length` wrapping cursor advances return the cursor to the same residue mod
`Length`, so the window seen by the next filtering step is unchanged; a full
`Run`/`RunErrorIn` call writes exactly one buffer slot — the one that held
the evicted oldest sample — leaving all other slots unchanged. -/
theorem C10_adapt_frame_conditions (d : AfData) (input desired err : ℚ)
    (h : StateInv d) : FrameSpec d input desired err := by
  obtain ⟨a1, a2, a3, a4, a5⟩ := AdaptWeights_spec d h
  obtain ⟨hL, hbuf, hw, hidx⟩ := id h
  obtain ⟨_, _, _, _, r5, _⟩ := Run_spec d input desired h
  obtain ⟨_, _, _, _, e5, _⟩ := RunErrorIn_spec d input err h
  refine ⟨a3, a5, a4, ?_, r5, e5, oldest_slot d h, ?_⟩
  · intro i hi
    exact window_congr (AdaptWeights d) d a3 rfl a5 i hi
  · intro k hk
    rw [r5, getD_set_ne _ _ (fun hc => hk hc.symm)]

theorem C10_witness : StateInv dEx ∧ FrameSpec dEx 1 2 3 :=
  ⟨by decide, C10_adapt_frame_conditions dEx 1 2 3 (by decide)⟩

/-! ### History evolution (claim C4) -/

lemma insertSample_Length (x : ℚ) (d : AfData) : (insertSample x d).Length = d.Length := rfl

lemma insertSample_StateInv (x : ℚ) (d : AfData) (h : StateInv d) :
    StateInv (insertSample x d) := by
  obtain ⟨hL, hbuf, hw, hidx⟩ := id h
  refine ⟨hL, ?_, hw, ?_⟩
  · show (d.pBuffer.set _ x).length = d.Length
    rw [List.length_set, hbuf]
  · show wrap d.BufferIdx d.Length + 1 ≤ d.Length
    unfold wrap
    split <;> omega

/-- Repeated insertion, oldest call first. -/
def insertAll (xs : List ℚ) (d : AfData) : AfData :=
  xs.foldl (fun s x => insertSample x s) d

lemma insertAll_append_singleton (xs : List ℚ) (y : ℚ) (d : AfData) :
    insertAll (xs ++ [y]) d = insertSample y (insertAll xs d) := by
  unfold insertAll
  rw [List.foldl_append]
  rfl

lemma insertAll_StateInv (xs : List ℚ) :
    ∀ d : AfData, StateInv d → StateInv (insertAll xs d) := by
  induction xs with
  | nil => intro d h; exact h
  | cons x xs ih =>
      intro d h
      exact ih _ (insertSample_StateInv x d h)

lemma insertAll_Length (xs : List ℚ) : ∀ d : AfData, (insertAll xs d).Length = d.Length := by
  induction xs with
  | nil => intro d; rfl
  | cons x xs ih => intro d; exact ih (insertSample x d)

lemma getD_replicate_zero (L n : ℕ) : (List.replicate L (0 : ℚ)).getD n 0 = 0 := by
  rcases Nat.lt_or_ge n L with hlt | hge
  · rw [List.getD_eq_getElem?_getD,
      List.getElem?_eq_getElem (by rw [List.length_replicate]; exact hlt),
      List.getElem_replicate, Option.getD_some]
  · rw [List.getD_eq_default _ _ (by rw [List.length_replicate]; exact hge)]

lemma initData_StateInv (mu rho : ℚ) (L : ℕ) (hL : 0 < L) :
    StateInv (initData mu rho L) := by
  refine ⟨hL, ?_, ?_, ?_⟩ <;> simp [initData]

lemma window_initData (mu rho : ℚ) (L i : ℕ) : window (initData mu rho L) i = 0 := by
  unfold window
  exact getD_replicate_zero L _

/-- The contents claimed for the history window after any insertion
sequence: position `i` holds the `(i+1)`-th most recent input, and positions
beyond the number of insertions still hold the zero initialisation. -/
def HistorySpec (L : ℕ) (mu rho : ℚ) (xs : List ℚ) : Prop :=
  ∀ i, i < L → window (insertAll xs (initData mu rho L)) i
      = if i < xs.length then xs.getD (xs.length - 1 - i) 0 else 0

/-- C4: for every capacity `L ≥ 1` and every insertion sequence, the window
(index 0 = newest) holds exactly the most recent `L` inputs in
newest-to-oldest order, zero-filled beyond the number of insertions; in
particular after `N ≥ L` insertions it is precisely the last `L` inputs. -/
theorem C4_history_holds_recent_inputs (L : ℕ) (mu rho : ℚ) (xs : List ℚ)
    (hL : 0 < L) : HistorySpec L mu rho xs := by
  unfold HistorySpec
  induction xs using List.reverseRecOn with
  | nil =>
      intro i hi
      rw [if_neg (by simp)]
      exact window_initData mu rho L i
  | append_singleton ys y ih =>
      intro i hi
      rw [insertAll_append_singleton]
      have hinv : StateInv (insertAll ys (initData mu rho L)) :=
        insertAll_StateInv ys _ (initData_StateInv mu rho L hL)
      have hlen : (insertAll ys (initData mu rho L)).Length = L :=
        insertAll_Length ys _
      have hlens : (ys ++ [y]).length = ys.length + 1 := by
        rw [List.length_append, List.length_cons, List.length_nil]
      cases i with
      | zero =>
          rw [window_insert_zero y _ hinv, if_pos (by omega), hlens]
          rw [List.getD_append_right ys [y] 0 (ys.length + 1 - 1 - 0) (by omega)]
          have h1 : ys.length + 1 - 1 - 0 - ys.length = 0 := by omega
          rw [h1, List.getD_cons_zero]
      | succ i =>
          rw [window_insert_succ y _ hinv i (by rw [hlen]; exact hi),
            ih i (by omega), hlens]
          by_cases hcase : i < ys.length
          · rw [if_pos hcase, if_pos (by omega),
              List.getD_append ys [y] 0 (ys.length + 1 - 1 - (i + 1)) (by omega)]
            have h1 : ys.length - 1 - i = ys.length + 1 - 1 - (i + 1) := by omega
            rw [h1]
          · rw [if_neg (by omega), if_neg (by omega)]

theorem C4_witness : 0 < 2 ∧ HistorySpec 2 1 1 [3, 4, 5] :=
  ⟨by decide, C4_history_holds_recent_inputs 2 1 1 [3, 4, 5] (by decide)⟩

/-! ### Zero-signal idempotence (claim C7) -/

/-- One per-sample call to the engine, with its arguments. -/
inductive AfCall where
  | run (input desired : ℚ)
  | runErrorIn (input error : ℚ)
  deriving DecidableEq

/-- State transition of one per-sample call. -/
def stepCall (d : AfData) (c : AfCall) : AfData :=
  match c with
  | .run x des => (AdaptiveFilterRun x des d).2
  | .runErrorIn x e => (AdaptiveFilterRunErrorIn x e d).2

/-- The input sample carried by a call. -/
def callInput : AfCall → ℚ
  | .run x _ => x
  | .runErrorIn x _ => x

/-- Driving the engine through a whole sequence of calls. -/
def driveAll (cs : List AfCall) (d : AfData) : AfData := cs.foldl stepCall d

lemma set_zero_getD (l : List ℚ) (e : ℕ) (h : ∀ k, l.getD k 0 = 0) (k : ℕ) :
    (l.set e (0 : ℚ)).getD k 0 = 0 := by
  by_cases hke : e = k
  · subst hke
    by_cases hlen : e < l.length
    · rw [getD_set_self _ _ _ hlen]
    · rw [List.getD_eq_default _ _ (by rw [List.length_set]; omega)]
  · rw [getD_set_ne _ _ hke]
    exact h k

lemma window_zero_of_buffer_zero (d : AfData) (hbuf0 : ∀ k, d.pBuffer.getD k 0 = 0)
    (i : ℕ) : window d i = 0 := by
  unfold window
  exact hbuf0 _

lemma zero_step (d : AfData) (h : StateInv d) (hbuf0 : ∀ k, d.pBuffer.getD k 0 = 0)
    (c : AfCall) (hc : callInput c = 0) :
    (stepCall d c).pWeights = d.pWeights
      ∧ (∀ k, (stepCall d c).pBuffer.getD k 0 = 0)
      ∧ StateInv (stepCall d c) := by
  obtain ⟨hL, hbuf, hw, hidx⟩ := id h
  have hwpost : ∀ x : ℚ, x = 0 → ∀ i, window (insertSample x d) i = 0 := by
    intro x hx i
    show (insertSample x d).pBuffer.getD _ 0 = 0
    rw [insertSample_pBuffer x d hidx, hx]
    exact set_zero_getD _ _ hbuf0 _
  cases c with
  | run x des =>
      have hx : x = 0 := hc
      obtain ⟨r1, r2, r3, r4, r5, r6⟩ := Run_spec d x des h
      have hlen2 : (AdaptiveFilterRun x des d).2.pWeights.length = d.Length := r6.2.2.1
      refine ⟨?_, ?_, r6⟩
      · refine list_ext_getD _ _ ?_ ?_
        · show (AdaptiveFilterRun x des d).2.pWeights.length = d.pWeights.length
          rw [hlen2, hw]
        · intro i
          show (AdaptiveFilterRun x des d).2.pWeights.getD i 0 = d.pWeights.getD i 0
          rcases Nat.lt_or_ge i d.Length with hi | hi
          · rw [r3 i hi, hwpost x hx i, mul_zero, add_zero]
          · rw [List.getD_eq_default _ _ (by rw [hlen2]; omega),
              List.getD_eq_default _ _ (by omega)]
      · intro k
        show (AdaptiveFilterRun x des d).2.pBuffer.getD k 0 = 0
        rw [r5, hx]
        exact set_zero_getD _ _ hbuf0 _
  | runErrorIn x e =>
      have hx : x = 0 := hc
      obtain ⟨r1, r2, r3, r4, r5, r6⟩ := RunErrorIn_spec d x e h
      have hlen2 : (AdaptiveFilterRunErrorIn x e d).2.pWeights.length = d.Length := r6.2.2.1
      refine ⟨?_, ?_, r6⟩
      · refine list_ext_getD _ _ ?_ ?_
        · show (AdaptiveFilterRunErrorIn x e d).2.pWeights.length = d.pWeights.length
          rw [hlen2, hw]
        · intro i
          show (AdaptiveFilterRunErrorIn x e d).2.pWeights.getD i 0 = d.pWeights.getD i 0
          rcases Nat.lt_or_ge i d.Length with hi | hi
          · rw [r2 i hi, window_zero_of_buffer_zero d hbuf0 i, mul_zero, add_zero]
          · rw [List.getD_eq_default _ _ (by rw [hlen2]; omega),
              List.getD_eq_default _ _ (by omega)]
      · intro k
        show (AdaptiveFilterRunErrorIn x e d).2.pBuffer.getD k 0 = 0
        rw [r5, hx]
        exact set_zero_getD _ _ hbuf0 _

/-- The claimed zero-signal behaviour: driving the engine with any call
sequence whose inputs are all exactly 0 leaves the weight vector unchanged. -/
def ZeroSignalSpec (d : AfData) (cs : List AfCall) : Prop :=
  (driveAll cs d).pWeights = d.pWeights

lemma zero_drive (cs : List AfCall) :
    ∀ d : AfData, StateInv d → (∀ k, d.pBuffer.getD k 0 = 0) →
      (∀ c ∈ cs, callInput c = 0) → (driveAll cs d).pWeights = d.pWeights := by
  induction cs with
  | nil => intro d _ _ _; rfl
  | cons c cs ih =>
      intro d h hbuf0 hcs
      obtain ⟨s1, s2, s3⟩ := zero_step d h hbuf0 c (hcs c (List.mem_cons_self c cs))
      have h2 : (driveAll cs (stepCall d c)).pWeights = (stepCall d c).pWeights :=
        ih (stepCall d c) s3 s2 (fun c' hc' => hcs c' (List.mem_cons_of_mem c hc'))
      show (driveAll cs (stepCall d c)).pWeights = d.pWeights
      rw [h2, s1]

/-- C7: if every inserted input is exactly 0 (zero-initialised history, so
the window is all zeros at every step), neither `Run` nor `RunErrorIn` ever
changes any weight, whatever `desired`/`error` values the calls carry and
whatever `stepSize`/`regularization` the engine was built with. -/
theorem C7_zero_signal_freezes_weights (d : AfData) (cs : List AfCall)
    (h : StateInv d) (hbuf0 : ∀ k, k < d.Length → d.pBuffer.getD k 0 = 0)
    (hcs : ∀ c ∈ cs, callInput c = 0) : ZeroSignalSpec d cs := by
  obtain ⟨hL, hbuf, hw, hidx⟩ := id h
  have hbuf0' : ∀ k, d.pBuffer.getD k 0 = 0 := by
    intro k
    rcases Nat.lt_or_ge k d.Length with hk | hk
    · exact hbuf0 k hk
    · exact List.getD_eq_default _ _ (by omega)
  exact zero_drive cs d h hbuf0' hcs

theorem C7_witness :
    (StateInv (initData 1 0 2)
        ∧ (∀ k, k < (initData 1 0 2).Length → (initData 1 0 2).pBuffer.getD k 0 = 0)
        ∧ (∀ c ∈ [AfCall.run 0 5, AfCall.runErrorIn 0 7], callInput c = 0))
      ∧ ZeroSignalSpec (initData 1 0 2) [AfCall.run 0 5, AfCall.runErrorIn 0 7] :=
  ⟨⟨by decide, by decide, by decide⟩,
   C7_zero_signal_freezes_weights _ _ (by decide) (by decide) (by decide)⟩

/-! ### The Matlab implementation (`src/Matlab/AdaptiveFir.m`)

The Matlab class keeps the history as a dense column vector and shifts it on
every insertion; its NLMS regularization constant is the hard-coded
`epsilon = 1e-10`. -/

structure AdaptiveFir where
  Buffer : List ℚ
  Weights : List ℚ
  StepSize : ℚ
  Error : ℚ
  deriving DecidableEq

/-- The hard-coded `epsilon = 1e-10` of `AdaptiveFir.NLMS` (AdaptiveFir.m
line 32). -/
def matlabEpsilon : ℚ := 1 / 10 ^ 10

/-- `AF.Error = e` as a state transformer. -/
def setErrorM (m : AdaptiveFir) (e : ℚ) : AdaptiveFir := { m with Error := e }

@[simp] lemma setErrorM_Buffer (m : AdaptiveFir) (e : ℚ) : (setErrorM m e).Buffer = m.Buffer := rfl

@[simp] lemma setErrorM_Weights (m : AdaptiveFir) (e : ℚ) :
    (setErrorM m e).Weights = m.Weights := rfl

@[simp] lemma setErrorM_StepSize (m : AdaptiveFir) (e : ℚ) :
    (setErrorM m e).StepSize = m.StepSize := rfl

@[simp] lemma setErrorM_Error (m : AdaptiveFir) (e : ℚ) : (setErrorM m e).Error = e := rfl

namespace AdaptiveFir

/-- `NLMS` (AdaptiveFir.m lines 31-35):
`NormStepSize = StepSize/(epsilon + sum(Buffer.^2))`,
`Weights = Weights + NormStepSize*Error*Buffer`. -/
def NLMS (AF : AdaptiveFir) : AdaptiveFir :=
  { AF with
      Weights := List.zipWith
        (fun w b => w
          + AF.StepSize / (matlabEpsilon + (AF.Buffer.map (fun v => v * v)).sum)
              * AF.Error * b)
        AF.Weights AF.Buffer }

/-- `RunFilter` (AdaptiveFir.m lines 37-40):
`Buffer = [Input; Buffer(1:end-1)]`, `Output = Weights' * Buffer`. -/
def RunFilter (AF : AdaptiveFir) (Input : ℚ) : ℚ × AdaptiveFir :=
  ((List.zipWith (fun w b => w * b) AF.Weights (Input :: AF.Buffer.dropLast)).sum,
   { AF with Buffer := Input :: AF.Buffer.dropLast })

/-- `Run` (AdaptiveFir.m lines 17-21): filter, set the error, adapt. -/
def Run (AF : AdaptiveFir) (Input Desired : ℚ) : ℚ × AdaptiveFir :=
  ((RunFilter AF Input).1,
   NLMS (setErrorM (RunFilter AF Input).2 (Desired - (RunFilter AF Input).1)))

/-- `RunErrorInput` (AdaptiveFir.m lines 23-27): set the error, adapt,
filter. -/
def RunErrorInput (AF : AdaptiveFir) (Input Error : ℚ) : ℚ × AdaptiveFir :=
  RunFilter (NLMS (setErrorM AF Error)) Input

end AdaptiveFir

@[simp] lemma NLMS_Buffer (m : AdaptiveFir) : (m.NLMS).Buffer = m.Buffer := rfl

@[simp] lemma NLMS_StepSize (m : AdaptiveFir) : (m.NLMS).StepSize = m.StepSize := rfl

@[simp] lemma NLMS_Error (m : AdaptiveFir) : (m.NLMS).Error = m.Error := rfl

lemma NLMS_Weights (m : AdaptiveFir) :
    (m.NLMS).Weights = List.zipWith
      (fun w b => w
        + m.StepSize / (matlabEpsilon + (m.Buffer.map (fun v => v * v)).sum)
            * m.Error * b)
      m.Weights m.Buffer := rfl

/-! ### The Matlab constructor and its validation (claim C6) -/

/-- A Matlab value passed to the constructor: a 2-D array with its
dimensions; `entries` lists the elements in column-major order
(`Weights(:)` flattening). -/
structure MatlabArray where
  rows : ℕ
  cols : ℕ
  entries : List ℚ
  deriving DecidableEq

/-- Matlab `isvector`: a nonempty 1-by-N or N-by-1 array (empty arrays are
not vectors). -/
def misvector (a : MatlabArray) : Bool :=
  (a.rows == 1 && Nat.ble 1 a.cols) || (a.cols == 1 && Nat.ble 1 a.rows)

/-- Matlab `isscalar`: a 1-by-1 array. -/
def misscalar (a : MatlabArray) : Bool := a.rows == 1 && a.cols == 1

/-- The constructor `AdaptiveFir(Weights, StepSize)` (AdaptiveFir.m lines
10-16): `assert(isvector(Weights))`, store the flattened weights and an
equally sized zero buffer, `assert(isscalar(StepSize))`, store it.  There is
no regularization argument and no further validation. -/
def mkAdaptiveFir (Weights StepSize : MatlabArray) : Except String AdaptiveFir :=
  if misvector Weights then
    if misscalar StepSize then
      Except.ok { Weights := Weights.entries,
                  Buffer := List.replicate Weights.entries.length 0,
                  StepSize := StepSize.entries.getD 0 0,
                  Error := 0 }
    else Except.error "StepSize must be a scalar."
  else Except.error "Weights must be a vector."

/-- Whether a construction attempt failed with a configuration error. -/
def isConfigError : Except String AdaptiveFir → Bool
  | Except.error _ => true
  | Except.ok _ => false

/-- C6 counterexample: a nonempty 2-by-2 weight matrix together with a
scalar step size is rejected by the constructor, although the claim's listed
failure conditions (empty weights / non-scalar stepSize / bad
regularization) all fail to hold, so construction failure is NOT equivalent
to the claim's condition list. -/
theorem C6_counterexample :
    isConfigError (mkAdaptiveFir ⟨2, 2, [1, 1, 1, 1]⟩ ⟨1, 1, [1]⟩) = true
      ∧ (⟨2, 2, [1, 1, 1, 1]⟩ : MatlabArray).entries.length ≠ 0
      ∧ misscalar ⟨1, 1, [1]⟩ = true := by
  refine ⟨rfl, ?_, rfl⟩
  decide

/-- What the constructor actually validates. -/
def ConstructorSpec (W S : MatlabArray) : Prop :=
  (isConfigError (mkAdaptiveFir W S) = false ↔ (misvector W = true ∧ misscalar S = true))
    ∧ (misvector W = true → W.entries ≠ [])

/-- C6 (amended): construction fails with a configuration error iff the
weight argument is not a (nonempty 1-by-N or N-by-1) vector or the step size
is not a 1-by-1 scalar; an empty weight array is in particular rejected.
Regularization is not a constructor parameter (Matlab hard-codes
`epsilon = 1e-10`) and is never validated.  Per-sample operations are total
functions and raise nothing. -/
theorem C6_construction_validation (W S : MatlabArray)
    (hw : W.entries.length = W.rows * W.cols) : ConstructorSpec W S := by
  constructor
  · unfold mkAdaptiveFir
    by_cases h1 : misvector W = true
    · rw [if_pos h1]
      by_cases h2 : misscalar S = true
      · rw [if_pos h2]
        simp [isConfigError, h1, h2]
      · rw [if_neg h2]
        simp [isConfigError, h1, h2]
    · rw [if_neg h1]
      simp [isConfigError, h1]
  · intro hv hnil
    have h0 : W.rows * W.cols = 0 := by
      rw [← hw, hnil]
      rfl
    unfold misvector at hv
    simp only [Bool.or_eq_true, Bool.and_eq_true, beq_iff_eq, Nat.ble_eq] at hv
    rcases hv with ⟨hr, hc⟩ | ⟨hc, hr⟩
    · rw [hr, one_mul] at h0
      omega
    · rw [hc, mul_one] at h0
      omega

theorem C6_witness :
    ((⟨3, 1, [1, 2, 3]⟩ : MatlabArray).entries.length = 3 * 1)
      ∧ ConstructorSpec ⟨3, 1, [1, 2, 3]⟩ ⟨1, 1, [2]⟩ :=
  ⟨by decide, C6_construction_validation ⟨3, 1, [1, 2, 3]⟩ ⟨1, 1, [2]⟩ (by decide)⟩

/-! ### Refinement: the C circular-buffer engine simulates the Matlab
shift-register engine (claim C8) -/

lemma getD_zipWith (f : ℚ → ℚ → ℚ) (a b : List ℚ) (i : ℕ)
    (ha : i < a.length) (hb : i < b.length) :
    (List.zipWith f a b).getD i 0 = f (a.getD i 0) (b.getD i 0) := by
  have hz : i < (List.zipWith f a b).length := by
    rw [List.length_zipWith]
    exact lt_min ha hb
  rw [List.getD_eq_getElem?_getD, List.getElem?_eq_getElem hz, Option.getD_some,
    List.getElem_zipWith,
    List.getD_eq_getElem?_getD, List.getElem?_eq_getElem ha, Option.getD_some,
    List.getD_eq_getElem?_getD, List.getElem?_eq_getElem hb, Option.getD_some]

/-- The abstraction relation between a C engine state and a Matlab engine
state: same length, same chronological window contents, same weights
(pointwise), same step size, the C regularization equal to the Matlab
hard-coded epsilon, and the same last error. -/
def Rel (d : AfData) (m : AdaptiveFir) : Prop :=
  StateInv d
    ∧ m.Buffer.length = d.Length
    ∧ m.Weights.length = d.Length
    ∧ (∀ i, i < d.Length → window d i = m.Buffer.getD i 0)
    ∧ (∀ i, i < d.Length → d.pWeights.getD i 0 = m.Weights.getD i 0)
    ∧ d.StepSize = m.StepSize
    ∧ d.Regularization = matlabEpsilon
    ∧ d.Error = m.Error

/-- Inserting into the circular buffer corresponds to consing onto the
shifted dense buffer. -/
lemma shift_window_rel (d : AfData) (m : AdaptiveFir) (hinv : StateInv d)
    (hmb : m.Buffer.length = d.Length)
    (hwin : ∀ i, i < d.Length → window d i = m.Buffer.getD i 0) (input : ℚ) :
    ∀ i, i < d.Length
      → window (insertSample input d) i = (input :: m.Buffer.dropLast).getD i 0 := by
  intro i hi
  cases i with
  | zero => rw [window_insert_zero input d hinv, List.getD_cons_zero]
  | succ i =>
      rw [window_insert_succ input d hinv i hi, List.getD_cons_succ,
        getD_dropLast _ _ (by omega), hwin i (by omega)]

lemma energy_rel (d : AfData) (m : AdaptiveFir) (hmb : m.Buffer.length = d.Length)
    (hwin : ∀ i, i < d.Length → window d i = m.Buffer.getD i 0) :
    ∑ j ∈ Finset.range d.Length, window d j * window d j
      = (m.Buffer.map (fun v => v * v)).sum := by
  rw [sum_map_sq, hmb]
  exact Finset.sum_congr rfl fun j hj => by
    rw [hwin j (Finset.mem_range.mp hj)]

/-- One `Run` step preserves the abstraction relation and produces the same
output on both sides. -/
lemma Rel_run (d : AfData) (m : AdaptiveFir) (h : Rel d m) (input desired : ℚ) :
    (AdaptiveFilterRun input desired d).1 = (m.Run input desired).1
      ∧ Rel (AdaptiveFilterRun input desired d).2 (m.Run input desired).2 := by
  obtain ⟨hinv, hmb, hmw, hwin, hwts, hss, hreg, herr⟩ := h
  obtain ⟨hL, hbuf, hw, hidx⟩ := id hinv
  obtain ⟨r1, r2, r3, r4, r5, r6⟩ := Run_spec d input desired hinv
  have hB'len : (input :: m.Buffer.dropLast).length = d.Length := by
    rw [List.length_cons, List.length_dropLast]
    omega
  have hwin' := shift_window_rel d m hinv hmb hwin input
  have hout : (AdaptiveFilterRun input desired d).1 = (m.Run input desired).1 := by
    rw [r1]
    show _ = (List.zipWith (fun w b => w * b) m.Weights (input :: m.Buffer.dropLast)).sum
    rw [sum_zipWith_mul, hmw, hB'len, min_self]
    exact Finset.sum_congr rfl fun i hi => by
      rw [Finset.mem_range] at hi
      rw [hwts i hi, hwin' i hi]
  have henergy : ∑ j ∈ Finset.range d.Length,
      window (insertSample input d) j * window (insertSample input d) j
        = ((input :: m.Buffer.dropLast).map (fun v => v * v)).sum := by
    rw [sum_map_sq, hB'len]
    exact Finset.sum_congr rfl fun j hj => by
      rw [hwin' j (Finset.mem_range.mp hj)]
  have hMW : (m.Run input desired).2.Weights
      = List.zipWith
          (fun w b => w
            + m.StepSize
                / (matlabEpsilon + ((input :: m.Buffer.dropLast).map (fun v => v * v)).sum)
              * (desired - (m.Run input desired).1) * b)
          m.Weights (input :: m.Buffer.dropLast) := rfl
  have hwts' : ∀ i, i < d.Length →
      (AdaptiveFilterRun input desired d).2.pWeights.getD i 0
        = (m.Run input desired).2.Weights.getD i 0 := by
    intro i hi
    rw [r3 i hi, hMW, getD_zipWith _ _ _ i (by omega) (by omega),
      hwts i hi, hwin' i hi, hss, hreg, henergy, r2, r1]
    show _ = _ + _ * (desired - (m.Run input desired).1) * _
    rw [← hout, r1]
  refine ⟨hout, r6, ?_, ?_, ?_, hwts', ?_, ?_, ?_⟩
  · show (input :: m.Buffer.dropLast).length = _
    exact hB'len
  · show (m.Run input desired).2.Weights.length = _
    rw [hMW, List.length_zipWith, hmw, hB'len, min_self]
    rfl
  · intro i hi
    have hi' : i < d.Length := hi
    rw [r4 i hi', hwin' i hi']
    rfl
  · show d.StepSize = m.StepSize
    exact hss
  · exact hreg
  · show (AdaptiveFilterRun input desired d).2.Error = desired - (m.Run input desired).1
    rw [r2, hout]

/-- One `RunErrorIn` step preserves the abstraction relation and produces
the same output on both sides. -/
lemma Rel_runErrorIn (d : AfData) (m : AdaptiveFir) (h : Rel d m) (input error : ℚ) :
    (AdaptiveFilterRunErrorIn input error d).1 = (m.RunErrorInput input error).1
      ∧ Rel (AdaptiveFilterRunErrorIn input error d).2 (m.RunErrorInput input error).2 := by
  obtain ⟨hinv, hmb, hmw, hwin, hwts, hss, hreg, herr⟩ := h
  obtain ⟨hL, hbuf, hw, hidx⟩ := id hinv
  obtain ⟨r1, r2, r3, r4, r5, r6⟩ := RunErrorIn_spec d input error hinv
  have hB'len : (input :: m.Buffer.dropLast).length = d.Length := by
    rw [List.length_cons, List.length_dropLast]
    omega
  have hwin' := shift_window_rel d m hinv hmb hwin input
  have hNW : (AdaptiveFir.NLMS (setErrorM m error)).Weights
      = List.zipWith
          (fun w b => w
            + m.StepSize / (matlabEpsilon + (m.Buffer.map (fun v => v * v)).sum)
              * error * b)
          m.Weights m.Buffer := rfl
  have hNWlen : (AdaptiveFir.NLMS (setErrorM m error)).Weights.length = d.Length := by
    rw [hNW, List.length_zipWith, hmw, hmb, min_self]
  have hwts' : ∀ i, i < d.Length →
      (AdaptiveFilterRunErrorIn input error d).2.pWeights.getD i 0
        = (AdaptiveFir.NLMS (setErrorM m error)).Weights.getD i 0 := by
    intro i hi
    rw [r2 i hi, hNW, getD_zipWith _ _ _ i (by omega) (by omega),
      hwts i hi, hwin i hi, hss, hreg, energy_rel d m hmb hwin]
  have hout : (AdaptiveFilterRunErrorIn input error d).1
      = (m.RunErrorInput input error).1 := by
    rw [r3]
    show _ = (List.zipWith (fun w b => w * b)
        (AdaptiveFir.NLMS (setErrorM m error)).Weights (input :: m.Buffer.dropLast)).sum
    rw [sum_zipWith_mul, hNWlen, hB'len, min_self]
    exact Finset.sum_congr rfl fun i hi => by
      rw [Finset.mem_range] at hi
      rw [hwts' i hi, hwin' i hi]
  refine ⟨hout, r6, ?_, ?_, ?_, hwts', ?_, ?_, ?_⟩
  · show (input :: m.Buffer.dropLast).length = _
    exact hB'len
  · show (AdaptiveFir.NLMS (setErrorM m error)).Weights.length = _
    exact hNWlen
  · intro i hi
    have hi' : i < d.Length := hi
    rw [r4 i hi', hwin' i hi']
    rfl
  · show d.StepSize = m.StepSize
    exact hss
  · exact hreg
  · show (AdaptiveFilterRunErrorIn input error d).2.Error = error
    exact r1

/-- State transition of one Matlab call. -/
def stepCallM (m : AdaptiveFir) (c : AfCall) : AdaptiveFir :=
  match c with
  | .run x des => (m.Run x des).2
  | .runErrorIn x e => (m.RunErrorInput x e).2

/-- Output of one C call. -/
def outCallC (d : AfData) : AfCall → ℚ
  | .run x des => (AdaptiveFilterRun x des d).1
  | .runErrorIn x e => (AdaptiveFilterRunErrorIn x e d).1

/-- Output of one Matlab call. -/
def outCallM (m : AdaptiveFir) : AfCall → ℚ
  | .run x des => (m.Run x des).1
  | .runErrorIn x e => (m.RunErrorInput x e).1

/-- The output sequence of the C engine over a call sequence. -/
def traceC : AfData → List AfCall → List ℚ
  | _, [] => []
  | d, c :: cs => outCallC d c :: traceC (stepCall d c) cs

/-- The output sequence of the Matlab engine over a call sequence. -/
def traceM : AdaptiveFir → List AfCall → List ℚ
  | _, [] => []
  | m, c :: cs => outCallM m c :: traceM (stepCallM m c) cs

/-- Driving the Matlab engine through a whole call sequence. -/
def driveAllM (cs : List AfCall) (m : AdaptiveFir) : AdaptiveFir := cs.foldl stepCallM m

lemma Rel_step (d : AfData) (m : AdaptiveFir) (c : AfCall) (h : Rel d m) :
    outCallC d c = outCallM m c ∧ Rel (stepCall d c) (stepCallM m c) := by
  cases c with
  | run x des => exact Rel_run d m h x des
  | runErrorIn x e => exact Rel_runErrorIn d m h x e

/-- The claimed observational equivalence: related states stay related after
every step (same weights, window contents, and error) and yield the same
output sequence. -/
def RefinementSpec (d : AfData) (m : AdaptiveFir) (cs : List AfCall) : Prop :=
  traceC d cs = traceM m cs ∧ Rel (driveAll cs d) (driveAllM cs m)

/-- C8: started from equal abstract states (same weights, same chronological
window, same stepSize, and the C regularization equal to the Matlab
hard-coded 1e-10) and driven by the same call sequence, the circular-index C
implementation and the copy-and-shift Matlab implementation produce, in
exact arithmetic, identical outputs and remain in equal abstract states
(identical lastError and weights) after every step. -/
theorem C8_circular_matches_shift (d : AfData) (m : AdaptiveFir) (cs : List AfCall)
    (h : Rel d m) : RefinementSpec d m cs := by
  induction cs generalizing d m with
  | nil => exact ⟨rfl, h⟩
  | cons c cs ih =>
      obtain ⟨ho, hr⟩ := Rel_step d m c h
      obtain ⟨ht, hR⟩ := ih (stepCall d c) (stepCallM m c) hr
      refine ⟨?_, hR⟩
      show outCallC d c :: traceC (stepCall d c) cs
          = outCallM m c :: traceM (stepCallM m c) cs
      rw [ho, ht]

/-- Concrete related pair used by the C8 witness. -/
def dRef : AfData := initData 2 matlabEpsilon 2

/-- Matlab twin of `dRef`. -/
def mRef : AdaptiveFir := { Buffer := [0, 0], Weights := [0, 0], StepSize := 2, Error := 0 }

theorem C8_witness :
    Rel dRef mRef ∧ RefinementSpec dRef mRef [AfCall.run 1 2, AfCall.runErrorIn 1 3] :=
  ⟨⟨by decide, by decide, by decide, by decide, by decide, rfl, rfl, rfl⟩,
   C8_circular_matches_shift dRef mRef [AfCall.run 1 2, AfCall.runErrorIn 1 3]
     ⟨by decide, by decide, by decide, by decide, by decide, rfl, rfl, rfl⟩⟩

end LMS
